import Mathlib

/-!
Verification of the address_hammer parsing core.

The development shallowly embeds the combinator engine (`__zipper__.py`)
and the address grammar / orchestration (`__parsing__.py`).

Python exceptions are modelled by the `PyExc` type and fallible code
returns `Except PyExc _`.  The generic text helpers of the external
`__regex__` module (whole-word matching, punctuation stripping,
whitespace collapsing, upper-casing) and the word lists loaded from
text files are modelled from the spec where noted.  Results iterators
are modelled twice: a pure value model (`Zipper`, results as lists)
capturing what a result sequence yields, and a heap model (`ZipperH`)
capturing Python generator objects, whose consumption is observable.
-/

/-- Python exception kinds relevant to the parsing core.
`parseError orig reason` models `ParseError(orig, reason)` (and its
subclass `EndOfAddressError`, whose reason ends in ": end of input");
`endOfInput` models `EndOfInputError`; `configError` models
`ParserConfigError`; `assertionFailed` models a failed `assert`. -/
inductive PyExc where
  | endOfInput : PyExc
  | parseError : String → String → PyExc
  | configError : String → PyExc
  | assertionFailed : PyExc
deriving DecidableEq, Repr

/-- One recognized unit of output: `ParseStep(label, value)`. -/
structure ParseStep where
  label : String
  value : String
deriving DecidableEq, Repr

/-- The positional token view `GenericInput` of `__zipper__.py`:
a token sequence plus an index. -/
structure GenericInput (T : Type) where
  data : List T
  state : Nat
deriving DecidableEq, Repr

/-- `GenericInput.item`: raises `EndOfInputError` when
`state + 1 > len(data)`, otherwise returns `data[state]`. -/
def GenericInput.item {T : Type} (g : GenericInput T) : Except PyExc T :=
  if h : g.state + 1 > g.data.length then .error .endOfInput
  else .ok (g.data.get ⟨g.state, by omega⟩)

/-- `GenericInput.advance(step)`: raises `EndOfInputError` when the new
position would exceed `len(data)`, otherwise returns a new view sharing
the data. -/
def GenericInput.advance {T : Type} (g : GenericInput T) (step : Nat) :
    Except PyExc (GenericInput T) :=
  if g.state + step > g.data.length then .error .endOfInput
  else .ok ⟨g.data, g.state + step⟩

/-- `GenericInput.rest`: unchecked step by one (source builds the new
view directly, without a bound check). -/
def GenericInput.rest {T : Type} (g : GenericInput T) : GenericInput T :=
  ⟨g.data, g.state + 1⟩

/-- `GenericInput.empty`: true iff `state + 1 > len(data)`. -/
def GenericInput.empty {T : Type} (g : GenericInput T) : Bool :=
  decide (g.state + 1 > g.data.length)

/-- The engine state of `__zipper__.py`, value model: the cursor plus
the list of results the accumulated results iterator yields. -/
structure Zipper (I O : Type) where
  leftover : GenericInput I
  results : List O
deriving DecidableEq, Repr

/-- `Zipper.merge`: the new state has the second argument's leftover and
yields `self.results` then `other.results` (source: a generator doing
`yield from` on both). -/
def Zipper.merge {I O : Type} (z other : Zipper I O) : Zipper I O :=
  ⟨other.leftover, z.results ++ other.results⟩

/-- The loop of `Zipper.takewhile`: apply `pred_arrow` to successive
items, accumulating results and the count `n` of consumed items; stop on
an empty result or an ignorable exception; propagate other exceptions. -/
def takewhileLoop {I O : Type} (pred_arrow : I → Except PyExc (List O))
    (ex_types : PyExc → Bool) : List I → Except PyExc (List O × Nat)
  | [] => .ok ([], 0)
  | i :: rest =>
    match pred_arrow i with
    | .ok [] => .ok ([], 0)
    | .ok rs =>
      match takewhileLoop pred_arrow ex_types rest with
      | .ok (rs2, n) => .ok (rs ++ rs2, n + 1)
      | .error e => .error e
    | .error e => if ex_types e then .ok ([], 0) else .error e

/-- `Zipper.takewhile`: when `single`, at most one item is examined (an
exception from `item()` is caught only when ignorable); otherwise the
remaining tokens are iterated.  Consumed count drives `advance`, and the
result is merged onto `self`. -/
def Zipper.takewhile {I O : Type} (z : Zipper I O)
    (pred_arrow : I → Except PyExc (List O)) (single : Bool)
    (ex_types : PyExc → Bool) : Except PyExc (Zipper I O) :=
  let itemsE : Except PyExc (List I) :=
    if single then
      match z.leftover.item with
      | .ok i => .ok [i]
      | .error e => if ex_types e then .ok [] else .error e
    else .ok (z.leftover.data.drop z.leftover.state)
  match itemsE with
  | .error e => .error e
  | .ok items =>
    match takewhileLoop pred_arrow ex_types items with
    | .error e => .error e
    | .ok (results, n) =>
      match z.leftover.advance n with
      | .error e => .error e
      | .ok new_input => .ok (z.merge ⟨new_input, results⟩)

/-- `Zipper.consume_with` is `takewhile` with `single = true`. -/
def Zipper.consume_with {I O : Type} (z : Zipper I O)
    (func : I → Except PyExc (List O)) (ex_types : PyExc → Bool) :
    Except PyExc (Zipper I O) :=
  z.takewhile func true ex_types

/-- `Zipper.chomp_n`: slice the next `n` tokens (`data[state:state+n]`,
possibly shorter near the end), apply `list_func` to the block, advance
by `n` and merge; an ignorable exception anywhere in that block returns
`self` unchanged, any other exception propagates. -/
def Zipper.chomp_n {I O : Type} (z : Zipper I O) (n : Nat)
    (list_func : List I → Except PyExc (List O)) (ex_types : PyExc → Bool) :
    Except PyExc (Zipper I O) :=
  let args := (z.leftover.data.drop z.leftover.state).take n
  let attempt : Except PyExc (Zipper I O) :=
    match list_func args with
    | .error e => .error e
    | .ok results =>
      match z.leftover.advance n with
      | .error e => .error e
      | .ok leftover => .ok (z.merge ⟨leftover, results⟩)
  match attempt with
  | .ok z2 => .ok z2
  | .error e => if ex_types e then .ok z else .error e

/-- The loop of `Zipper.or_`: try each rule on the current item; the
first non-empty result consumes one token; an ignorable exception moves
on to the next rule; no winner returns `self`. -/
def orLoop {I O : Type} (z : Zipper I O) (ex_types : PyExc → Bool) :
    List (I → Except PyExc (List O)) → Except PyExc (Zipper I O)
  | [] => .ok z
  | f :: fs =>
    let attempt : Except PyExc (Option (Zipper I O)) :=
      match z.leftover.item with
      | .error e => .error e
      | .ok item =>
        match f item with
        | .error e => .error e
        | .ok results =>
          if results.isEmpty then .ok none
          else
            match z.leftover.advance 1 with
            | .error e => .error e
            | .ok l => .ok (some (z.merge ⟨l, results⟩))
    match attempt with
    | .ok (some z2) => .ok z2
    | .ok none => orLoop z ex_types fs
    | .error e => if ex_types e then orLoop z ex_types fs else .error e

/-- `Zipper.or_`. -/
def Zipper.or_ {I O : Type} (z : Zipper I O)
    (funcs : List (I → Except PyExc (List O))) (ex_types : PyExc → Bool) :
    Except PyExc (Zipper I O) :=
  orLoop z ex_types funcs

/-- Modelled from the spec: the `Apply.reduce` / `x` pipeline helpers
(imported from `__zipper__` but absent from the sources) apply a list of
operators left to right to one initial engine state. -/
def applyReduce {I O : Type}
    (funcs : List (Zipper I O → Except PyExc (Zipper I O))) :
    Zipper I O → Except PyExc (Zipper I O)
  | z =>
    match funcs with
    | [] => .ok z
    | f :: fs =>
      match f z with
      | .ok z2 => applyReduce fs z2
      | .error e => .error e

/-! ### Heap model of results iterators

Python result sequences are iterators: a plain list (re-iterable) or a
generator produced by `Zipper.merge`, which yields from its two source
iterators and is exhausted by consumption.  `RVal` is an iterator value,
a heap cell holds a not-yet-exhausted merge generator's two sources. -/

/-- An iterator value: a materialized list or a reference to a merge
generator cell in the heap. -/
inductive RVal (O : Type) where
  | lst : List O → RVal O
  | gen : Nat → RVal O
deriving DecidableEq, Repr

/-- The generator heap: cell `i` holds `some (l, r)` while the merge
generator `gen i` is unconsumed, `none` once exhausted. -/
abbrev HeapR (O : Type) := List (Option (RVal O × RVal O))

/-- Engine state in the heap model. -/
structure ZipperH (I O : Type) where
  leftover : GenericInput I
  results : RVal O
deriving DecidableEq, Repr

/-- `Zipper.merge` in the heap model: allocate a fresh merge generator
over both results iterators; the heap is only extended. -/
def mergeH {I O : Type} (h : HeapR O) (a b : ZipperH I O) :
    ZipperH I O × HeapR O :=
  (⟨b.leftover, RVal.gen h.length⟩, h ++ [some (a.results, b.results)])

/-- Consume an iterator (as `list(...)` does): a list yields its
elements and stays re-iterable; a merge generator is marked exhausted,
then yields its left source followed by its right source; an exhausted
generator yields nothing.  `fuel` bounds the recursion; `consume`
supplies enough for every heap reachable by the operators. -/
def consumeR {O : Type} : Nat → HeapR O → RVal O → List O × HeapR O
  | _, h, .lst xs => (xs, h)
  | 0, h, .gen _ => ([], h)
  | fuel + 1, h, .gen i =>
    match h[i]? with
    | some (some (l, r)) =>
      let h0 := h.set i none
      let p1 := consumeR fuel h0 l
      let p2 := consumeR fuel p1.2 r
      (p1.1 ++ p2.1, p2.2)
    | _ => ([], h)

/-- Consume an iterator with adequate fuel. -/
def consume {O : Type} (h : HeapR O) (rv : RVal O) : List O × HeapR O :=
  consumeR h.length h rv

/-- `Zipper.takewhile` in the heap model: the loop accumulates a plain
list, which is merged onto `self` as a fresh generator. -/
def takewhileH {I O : Type} (h : HeapR O) (z : ZipperH I O)
    (pred_arrow : I → Except PyExc (List O)) (single : Bool)
    (ex_types : PyExc → Bool) : Except PyExc (ZipperH I O × HeapR O) :=
  let itemsE : Except PyExc (List I) :=
    if single then
      match z.leftover.item with
      | .ok i => .ok [i]
      | .error e => if ex_types e then .ok [] else .error e
    else .ok (z.leftover.data.drop z.leftover.state)
  match itemsE with
  | .error e => .error e
  | .ok items =>
    match takewhileLoop pred_arrow ex_types items with
    | .error e => .error e
    | .ok (results, n) =>
      match z.leftover.advance n with
      | .error e => .error e
      | .ok new_input => .ok (mergeH h z ⟨new_input, .lst results⟩)

/-- `Zipper.consume_with` in the heap model. -/
def consume_withH {I O : Type} (h : HeapR O) (z : ZipperH I O)
    (func : I → Except PyExc (List O)) (ex_types : PyExc → Bool) :
    Except PyExc (ZipperH I O × HeapR O) :=
  takewhileH h z func true ex_types

/-- `Zipper.chomp_n` in the heap model. -/
def chomp_nH {I O : Type} (h : HeapR O) (z : ZipperH I O) (n : Nat)
    (list_func : List I → Except PyExc (List O)) (ex_types : PyExc → Bool) :
    Except PyExc (ZipperH I O × HeapR O) :=
  let args := (z.leftover.data.drop z.leftover.state).take n
  let attempt : Except PyExc (ZipperH I O × HeapR O) :=
    match list_func args with
    | .error e => .error e
    | .ok results =>
      match z.leftover.advance n with
      | .error e => .error e
      | .ok leftover => .ok (mergeH h z ⟨leftover, .lst results⟩)
  match attempt with
  | .ok zh => .ok zh
  | .error e => if ex_types e then .ok (z, h) else .error e

/-- `Zipper.or_` in the heap model. -/
def orH {I O : Type} (h : HeapR O) (z : ZipperH I O) (ex_types : PyExc → Bool) :
    List (I → Except PyExc (List O)) → Except PyExc (ZipperH I O × HeapR O)
  | [] => .ok (z, h)
  | f :: fs =>
    let attempt : Except PyExc (Option (ZipperH I O × HeapR O)) :=
      match z.leftover.item with
      | .error e => .error e
      | .ok item =>
        match f item with
        | .error e => .error e
        | .ok results =>
          if results.isEmpty then .ok none
          else
            match z.leftover.advance 1 with
            | .error e => .error e
            | .ok l => .ok (some (mergeH h z ⟨l, .lst results⟩))
    match attempt with
    | .ok (some zh) => .ok zh
    | .ok none => orH h z ex_types fs
    | .error e => if ex_types e then orH h z ex_types fs else .error e

/-- Heap cells present before an operator ran are unchanged after it:
the formalization of "never modifies the state in place". -/
def heapPreserved {O : Type} (h h2 : HeapR O) : Prop :=
  ∀ i, i < h.length → h2[i]? = h[i]?

/-- A state's results iterator still yields `xs` whatever happened to
the heap: the formalization of "the original state remains usable". -/
def origReadable {I O : Type} (a : ZipperH I O) (xs : List O) : Prop :=
  ∀ h2 : HeapR O, consume h2 a.results = (xs, h2)

/-! ### Characters and normalization

The external `__regex__` helpers are modelled from the spec: case
folding, punctuation stripping (the `#` unit marker, `/`, `_` and
word characters survive — the later stages of `Parser.__tokenize__` and
`__chomp_unit__` read them), whitespace collapsing, and whole-word
pattern matching over alternation word lists. -/

/-- Lower-case ASCII letter. -/
def isLowerC (c : Char) : Bool := 97 ≤ c.toNat && c.toNat ≤ 122

/-- Upper-case ASCII letter. -/
def isUpperC (c : Char) : Bool := 65 ≤ c.toNat && c.toNat ≤ 90

/-- ASCII digit. -/
def isDigitC (c : Char) : Bool := 48 ≤ c.toNat && c.toNat ≤ 57

/-- Modelled from the spec: case folding of one character. -/
def upperChar (c : Char) : Char :=
  if isLowerC c then Char.ofNat (c.toNat - 32) else c

/-- Modelled from the spec: characters surviving `regex.remove_punc`. -/
def keepChar (c : Char) : Bool :=
  isUpperC c || isLowerC c || isDigitC c || c == ' ' || c == '#' ||
    c == '/' || c == '_'

/-- Characters of a fully normalized, `#`-free string. -/
def tokChar (c : Char) : Bool :=
  isUpperC c || isDigitC c || c == ' ' || c == '/' || c == '_'

/-- Python `str.replace(old, new)`: scan left to right, replace each
non-overlapping occurrence, skipping past the replaced occurrence.
`fuel` makes the recursion structural; `pyReplace` supplies `l.length`,
which is always enough. -/
def pyReplaceF (old new : List Char) : Nat → List Char → List Char
  | _, [] => []
  | 0, l => l
  | fuel + 1, c :: cs =>
    if !old.isEmpty && old.isPrefixOf (c :: cs) then
      new ++ pyReplaceF old new fuel (List.drop old.length (c :: cs))
    else c :: pyReplaceF old new fuel cs

/-- Python `str.replace` on character lists. -/
def pyReplace (old new l : List Char) : List Char :=
  pyReplaceF old new l.length l

/-- The words of a character list (split on spaces, empties dropped). -/
def wordsOf (l : List Char) : List (List Char) :=
  (l.splitOn ' ').filter (fun w => !w.isEmpty)

/-- Join words with single spaces. -/
def joinWords (ws : List (List Char)) : List Char :=
  [' '].intercalate ws

/-- Modelled from the spec: `regex.normalize_whitespace` collapses runs
of whitespace and trims the ends. -/
def normalizeWs (l : List Char) : List Char := joinWords (wordsOf l)

/-- Modelled from the spec: `regex.remove_punc` drops punctuation. -/
def removePunc (l : List Char) : List Char := l.filter keepChar

/-- Upper-casing a character list. -/
def upperL (l : List Char) : List Char := l.map upperChar

/-- The normalization part of `Parser.__tokenize__` before the unit
marker substitutions: commas to spaces, punctuation stripped,
upper-cased, whitespace normalized. -/
def normPart (l : List Char) : List Char :=
  normalizeWs (upperL (removePunc (pyReplace [','] [' '] l)))

/-- `Parser.__tokenize__` of the city-naive (blank) parser, on character
lists: commas to spaces; punctuation stripped; upper-cased; whitespace
normalized; `#` replaced by `APT `; a doubled `APT APT` collapsed.  The
known-city substitution of a blank parser replaces nothing (its city
alternation matches no word) and is the identity. -/
def tokenizeChars (l : List Char) : List Char :=
  pyReplace "APT APT".toList "APT".toList
    (pyReplace ['#'] "APT ".toList (normPart l))

/-- Does `pat` occur as a contiguous substring? -/
def hasSubstr (pat : List Char) : List Char → Bool
  | [] => pat.isEmpty
  | c :: cs => pat.isPrefixOf (c :: cs) || hasSubstr pat cs

/-- `Parser.__tokenize__` of the blank parser, on strings. -/
def tokenize (s : String) : String := String.mk (tokenizeChars s.toList)

/-- `s.split()`: the whitespace-delimited words of a string. -/
def strWords (s : String) : List String := (wordsOf s.toList).map String.mk

/-- Python `str.replace` on strings. -/
def strReplace (s old new : String) : String :=
  String.mk (pyReplace old.toList new.toList s.toList)

/-! ### Grammar atoms -/

/-- Modelled from the spec: `regex.match` of a one-token pattern built
by `regex.or_` over a word list matches a token iff the token is one of
the alternatives, returning the matched text. -/
def pat_or (ws : List String) (s : String) : Option String :=
  if ws.contains s then some s else none

/-- A word character of the `\w+` pattern. -/
def wordChar (c : Char) : Bool :=
  isUpperC c || isLowerC c || isDigitC c || c == '_'

/-- Modelled from the spec: the `\w+` pattern on one token. -/
def pat_word (s : String) : Option String :=
  if !s.isEmpty && s.toList.all wordChar then some s else none

/-- The house-number pattern `[\d/]+` on one token. -/
def pat_house (s : String) : Option String :=
  if !s.isEmpty && s.toList.all (fun c => isDigitC c || c == '/') then some s
  else none

/-- The `\d+` pattern on one token. -/
def pat_digits (s : String) : Option String :=
  if !s.isEmpty && s.toList.all isDigitC then some s else none

/-- The zip-code pattern `\d{5}` on one token. -/
def pat_zip (s : String) : Option String :=
  if s.toList.length == 5 && s.toList.all isDigitC then some s else none

/-- Modelled from the spec: the unit-identifier pattern
`\#?\s*(\d+[A-Z]?|[A-Z]\d*)` on one token. -/
def pat_unit_identifier (s : String) : Option String :=
  let l := if s.toList.head? == some '#' then s.toList.tail else s.toList
  let shapeA := !l.isEmpty &&
    (l.all isDigitC || (!l.dropLast.isEmpty && l.dropLast.all isDigitC &&
      l.getLast?.elim false isUpperC))
  let shapeB := l.head?.elim false isUpperC && l.tail.all isDigitC
  if shapeA || shapeB then some s else none

/-- `__make_stops_on__`: a token stops iff it matches one of the stop
patterns. -/
def make_stops_on (stop_patterns : List (String → Option String)) :
    String → Bool :=
  fun s => stop_patterns.any (fun pat => (pat s).isSome)

/-- A grammar atom `AddressComponent`: a compiled pattern (embedded as
its matching function), a label, an optional flag and a stop predicate.
The unused continuation field `cont` of the source is omitted. -/
structure AddressComponent where
  compiled_pattern : String → Option String
  label : String
  optional : Bool
  stops_on : String → Bool

/-- `AddressComponent.arrow_parse`: stop predicate first (empty result,
no error); then the pattern; a failed required match raises
`ParseError(token, label)`; a match yields one `ParseStep`. -/
def AddressComponent.arrow_parse (c : AddressComponent) :
    String → Except PyExc (List ParseStep) :=
  fun s =>
    if c.stops_on s then .ok []
    else
      match c.compiled_pattern s with
      | none => if c.optional then .ok [] else .error (.parseError s c.label)
      | some m => .ok [⟨c.label, m⟩]

/-! ### Word lists

The three word-list files are external resources; their contents are
modelled from the spec (standard street suffixes, the two-letter US
state codes, USPS secondary-unit designators). -/

/-- Modelled from the spec: `st_suffices.txt`. -/
def st_suffices : List String :=
  ["ST", "AVE", "RD", "BLVD", "DR", "LN", "CT", "WAY", "PL", "TRL",
   "PKWY", "CIR", "HWY", "TER", "LOOP"]

/-- The fixed inline directional list of the source. -/
def st_NESWs : List String := ["NE", "NW", "SE", "SW", "N", "S", "E", "W"]

/-- Modelled from the spec: `us_states.txt`. -/
def us_states : List String :=
  ["AL", "AK", "AZ", "AR", "CA", "CO", "CT", "DE", "FL", "GA", "HI",
   "ID", "IL", "IN", "IA", "KS", "KY", "LA", "ME", "MD", "MA", "MI",
   "MN", "MS", "MO", "MT", "NE", "NV", "NH", "NJ", "NM", "NY", "NC",
   "ND", "OH", "OK", "OR", "PA", "RI", "SC", "SD", "TN", "TX", "UT",
   "VT", "VA", "WA", "WV", "WI", "WY"]

/-- Modelled from the spec: `unit_types.txt`. -/
def unit_types : List String :=
  ["APT", "STE", "UNIT", "TRLR", "LOT", "RM", "FL", "BLDG", "BSMT",
   "DEPT", "OFC", "SPC", "STOP", "PH"]

/-- The `house_number` atom's rule. -/
def house_number_A : String → Except PyExc (List ParseStep) :=
  AddressComponent.arrow_parse
    ⟨pat_house, "house_number", false, fun _ => false⟩

/-- The `st_NESW` atom's rule. -/
def st_NESW_A : String → Except PyExc (List ParseStep) :=
  AddressComponent.arrow_parse
    ⟨pat_or st_NESWs, "st_NESW", false, fun _ => false⟩

/-- The `st_suffix` atom's rule. -/
def st_suffix_A : String → Except PyExc (List ParseStep) :=
  AddressComponent.arrow_parse
    ⟨pat_or st_suffices, "st_suffix", false, fun _ => false⟩

/-- The `us_state` atom's rule. -/
def us_state_A : String → Except PyExc (List ParseStep) :=
  AddressComponent.arrow_parse
    ⟨pat_or us_states, "us_state", false, fun _ => false⟩

/-- The `zip_code` atom's rule. -/
def zip_code_A : String → Except PyExc (List ParseStep) :=
  AddressComponent.arrow_parse ⟨pat_zip, "zip_code", false, fun _ => false⟩

/-- `__make_st_name__`: the greedy `\w+` street-name atom, stopping on
suffixes, directionals, unit types and the known-city patterns. -/
def make_st_name (known_cities : List (String → Option String)) :
    String → Except PyExc (List ParseStep) :=
  AddressComponent.arrow_parse
    ⟨pat_word, "st_name", false,
     make_stops_on
       ([pat_or st_suffices, pat_or st_NESWs, pat_or unit_types] ++
         known_cities)⟩

/-- The blank parser's city atom: any word, stopping on a state or a
numeral (an empty known-city alternation adds nothing to `\w+`). -/
def city_A_blank : String → Except PyExc (List ParseStep) :=
  AddressComponent.arrow_parse
    ⟨pat_word, "city", false, make_stops_on [pat_or us_states, pat_digits]⟩

/-- The parser's city rule wraps the atom, turning underscores back into
spaces in the matched value. -/
def city_fn_blank (s : String) : Except PyExc (List ParseStep) :=
  match city_A_blank s with
  | .ok ps => .ok (ps.map (fun p => ⟨p.label, strReplace p.value "_" " "⟩))
  | .error e => .error e

/-- `__chomp_unit__`: a two-token block; the first token must be the
bare `#` marker (read as `APT`) or a unit type, the second a unit
identifier; any failed sub-match yields empty; the `assert` on the block
length raises on a block that is not two tokens long. -/
def chomp_unit (words : List String) : Except PyExc (List ParseStep) :=
  if words.length = 2 then
    let w0 := words.getD 0 ""
    let w1 := words.getD 1 ""
    let unit : Option String :=
      if w0 = "#" then some "APT" else pat_or unit_types w0
    let identifier := pat_unit_identifier w1
    match unit, identifier with
    | some u, some i => .ok [⟨"unit", u ++ " " ++ i⟩]
    | _, _ => .ok []
  else .error .assertionFailed

/-! ### Field buckets and result collection -/

/-- Modelled from the spec: `address.HARD_COMPONENTS`, the required
fields of a checked parse. -/
def HARD_COMPONENTS : List String :=
  ["house_number", "st_name", "city", "us_state"]

/-- Modelled from the spec: `address.SOFT_COMPONENTS`, the optional
fields. -/
def SOFT_COMPONENTS : List String := ["st_suffix", "st_NESW", "unit", "zip_code"]

/-- The field buckets `d` of `Parser.__collect_results__`. -/
structure Buckets where
  house_number : List String := []
  st_name : List String := []
  st_suffix : List String := []
  st_NESW : List String := []
  unit : List String := []
  city : List String := []
  us_state : List String := []
  zip_code : List String := []
deriving DecidableEq, Repr

/-- Append one parse step's value to its labelled bucket. -/
def Buckets.add (b : Buckets) (p : ParseStep) : Buckets :=
  if p.label = "house_number" then
    { b with house_number := b.house_number ++ [p.value] }
  else if p.label = "st_name" then { b with st_name := b.st_name ++ [p.value] }
  else if p.label = "st_suffix" then
    { b with st_suffix := b.st_suffix ++ [p.value] }
  else if p.label = "st_NESW" then { b with st_NESW := b.st_NESW ++ [p.value] }
  else if p.label = "unit" then { b with unit := b.unit ++ [p.value] }
  else if p.label = "city" then { b with city := b.city ++ [p.value] }
  else if p.label = "us_state" then
    { b with us_state := b.us_state ++ [p.value] }
  else if p.label = "zip_code" then
    { b with zip_code := b.zip_code ++ [p.value] }
  else b

/-- Look a bucket up by field label. -/
def Buckets.get (b : Buckets) (label : String) : List String :=
  if label = "house_number" then b.house_number
  else if label = "st_name" then b.st_name
  else if label = "st_suffix" then b.st_suffix
  else if label = "st_NESW" then b.st_NESW
  else if label = "unit" then b.unit
  else if label = "city" then b.city
  else if label = "us_state" then b.us_state
  else if label = "zip_code" then b.zip_code
  else []

/-- Collect parse steps into buckets, discarding the `junk` sentinel
(the pipeline only emits the eight field labels or `junk`). -/
def buckets_of (results : List ParseStep) : Buckets :=
  results.foldl (fun b p => if p.label = "junk" then b else b.add p) {}

/-- The required-field check of `Parser.__collect_results__`: the first
required field with an empty bucket raises
`ParseError(s, "Could not identify " + req)`. -/
def required_check (s : String) (d : Buckets) :
    List String → Except PyExc Unit
  | [] => .ok ()
  | req :: rest =>
    if d.get req = [] then
      .error (.parseError s ("Could not identify " ++ req))
    else required_check s d rest

/-- The structured value built from the buckets (the external `Address`
collaborator's field mapping, modelled from the spec): required fields
joined with spaces, optional fields collapsed to `none` when blank,
provenance recorded. -/
structure RawAddress where
  house_number : String
  st_name : String
  city : String
  us_state : String
  st_suffix : Option String
  st_NESW : Option String
  unit : Option String
  zip_code : Option String
  is_raw : Bool
  orig : String
deriving DecidableEq, Repr

/-- `str_to_opt`: a blank joined value becomes an explicit absence. -/
def str_to_opt (s : String) : Option String :=
  if (wordsOf s.toList).isEmpty then none else some s

/-- `Parser.__collect_results__`: bucket the steps; in checked mode
require every hard component non-empty; strip `#` from unit values; join
buckets and build the structured value. -/
def collect_results (s0 : String) (results : List ParseStep)
    (checked : Bool) : Except PyExc RawAddress :=
  let d := buckets_of results
  match (if checked then required_check s0 d HARD_COMPONENTS else .ok ()) with
  | .error e => .error e
  | .ok _ =>
    let unit_vals := d.unit.map (fun v => strReplace v "#" "")
    .ok ⟨String.intercalate " " d.house_number,
         String.intercalate " " d.st_name,
         String.intercalate " " d.city,
         String.intercalate " " d.us_state,
         str_to_opt (String.intercalate " " d.st_suffix),
         str_to_opt (String.intercalate " " d.st_NESW),
         str_to_opt (String.intercalate " " unit_vals),
         str_to_opt (String.intercalate " " d.zip_code),
         true, s0⟩

/-! ### The blank parser's pipeline -/

/-- Engine states of the address grammar. -/
abbrev ZipS := Zipper String ParseStep

/-- The `ex_types` set `tuple([ParseError])` of `Parser.__ex_types__`. -/
def ex_parse : PyExc → Bool :=
  fun e => match e with
  | .parseError _ _ => true
  | _ => false

/-- The default `ex_types` set `[Uncatchable]`: nothing raisable is
ignorable. -/
def ex_default : PyExc → Bool := fun _ => false

/-- `Parser.__hn_nesw__`: house number, directional, greedy street name,
greedy suffixes, directional — all ignoring `ParseError`. -/
def hn_nesw (st_name_fn : String → Except PyExc (List ParseStep)) :
    List (ZipS → Except PyExc ZipS) :=
  [fun z => z.consume_with house_number_A ex_parse,
   fun z => z.consume_with st_NESW_A ex_parse,
   fun z => z.takewhile st_name_fn false ex_parse,
   fun z => z.takewhile st_suffix_A false ex_parse,
   fun z => z.consume_with st_NESW_A ex_parse]

/-- `Parser.__call__` of the blank parser (empty known-city set, so
`blank_parse` is `None` and the known-city substitution replaces
nothing).  Unit detection (modelled from the spec: a whole-word search
of the unit alternation over the normalized string) enables the
two-token unit step; a trailing five-digit token enables the zip step.
`EndOfInputError` escaping the pipeline becomes
`EndOfAddressError(s, "unknown")`, a `ParseError` is re-raised with the
original string. -/
def parser_call_blank (s0 : String) (checked : Bool) :
    Except PyExc RawAddress :=
  let s := tokenize s0
  let data := strWords s
  let unit_step : ZipS → Except PyExc ZipS :=
    if data.any (fun w => unit_types.contains w) then
      fun z => z.chomp_n 2 chomp_unit ex_parse
    else fun z => .ok z
  let zip_step : ZipS → Except PyExc ZipS :=
    match data.getLast? with
    | some w =>
      if (pat_zip w).isSome then fun z => z.consume_with zip_code_A ex_parse
      else fun z => .ok z
    | none => fun z => .ok z
  let funcs : List (ZipS → Except PyExc ZipS) :=
    hn_nesw (make_st_name [pat_or []]) ++
      [unit_step,
       fun z => z.takewhile city_fn_blank false ex_default,
       fun z => z.consume_with us_state_A ex_default,
       zip_step]
  match applyReduce funcs ⟨⟨data, 0⟩, []⟩ with
  | .error .endOfInput => .error (.parseError s0 "unknown: end of input")
  | .error (.parseError _ reason) => .error (.parseError s0 reason)
  | .error e => .error e
  | .ok z => collect_results s0 z.results checked

/-! ### smart_batch -/

/-- A parser as `smart_batch` sees one: its call behaviour and its
known-city list (the claims quantify over all parsers, so the call is
abstract). -/
structure ParserM where
  call : String → Except PyExc RawAddress
  known_cities : List String

/-- What pass 1 of `smart_batch` produced: the streamed results, the
deferred raw strings, the harvested city values (in yield order), and
the exception that escaped the pass, if any. -/
structure Pass1Out where
  ys : List RawAddress
  errs : List String
  cities : List String
  abort : Option PyExc
deriving Repr

/-- Pass 1 of `smart_batch`: each success streams its result and records
its city; `EndOfInputError` and `ParseError` defer the raw string; any
other exception escapes at once. -/
def pass1 (p : ParserM) : List String → Pass1Out
  | [] => ⟨[], [], [], none⟩
  | add :: rest =>
    match p.call add with
    | .ok a =>
      let r := pass1 p rest
      ⟨a :: r.ys, r.errs, a.city :: r.cities, r.abort⟩
    | .error .endOfInput =>
      let r := pass1 p rest
      ⟨r.ys, add :: r.errs, r.cities, r.abort⟩
    | .error (.parseError _ _) =>
      let r := pass1 p rest
      ⟨r.ys, add :: r.errs, r.cities, r.abort⟩
    | .error e => ⟨[], [], [], some e⟩

/-- What pass 2 produced: repaired results, strings handed to the
reporter callback, and the exception that escaped, if any. -/
structure Pass2Out where
  ys : List RawAddress
  reported : List String
  abort : Option PyExc
deriving Repr

/-- Pass 2 of `smart_batch`: rerun the deferred strings; only
`ParseError` is caught there (reported); any other exception escapes. -/
def pass2 (p2 : ParserM) : List String → Pass2Out
  | [] => ⟨[], [], none⟩
  | add :: rest =>
    match p2.call add with
    | .ok a =>
      let r := pass2 p2 rest
      ⟨a :: r.ys, r.reported, r.abort⟩
    | .error (.parseError _ _) =>
      let r := pass2 p2 rest
      ⟨r.ys, add :: r.reported, r.abort⟩
    | .error e => ⟨[], [], some e⟩

/-- `smart_batch`: pass 1 streams; on normal completion a second parser
is built over the original known cities plus the harvested ones
(`mk` models `Parser(known_cities=...)`) and pass 2 reruns the deferred
strings.  The triple is (everything yielded, strings reported, the
exception that escaped the generator, if any). -/
def smart_batch (mk : List String → ParserM) (p : ParserM)
    (adds : List String) : List RawAddress × List String × Option PyExc :=
  let r1 := pass1 p adds
  match r1.abort with
  | some e => (r1.ys, [], some e)
  | none =>
    let p2 := mk (p.known_cities ++ r1.cities.eraseDups)
    let r2 := pass2 p2 r1.errs
    (r1.ys ++ r2.ys, r2.reported, r2.abort)

/-- The error kinds pass 1 of `smart_batch` catches. -/
def caught1 : PyExc → Bool :=
  fun e => match e with
  | .endOfInput => true
  | .parseError _ _ => true
  | _ => false

/-- A parse outcome that does not abort pass 1: a success or a caught
error kind.  Not every `Parser.__call__` outcome is of this shape: a
truncated two-token unit block makes `__chomp_unit__`'s length assert
raise `AssertionError`, which nothing on the way out catches. -/
def benign1 (r : Except PyExc RawAddress) : Bool :=
  match r with
  | .ok _ => true
  | .error e => caught1 e

/-! ### Concrete sample values used by witnesses and counterexamples -/

/-- A sample structured address with the given city. -/
def sampleAddr (c : String) : RawAddress :=
  ⟨"1", "MAIN", c, "TX", none, none, none, none, true, c⟩

/-- A sample parser: fails with a parse error on `"BAD"`, with a config
error on `"CFG"`, succeeds otherwise. -/
def sampleParser : ParserM :=
  ⟨fun s =>
    if s = "BAD" then .error (.parseError s "x")
    else if s = "CFG" then .error (.configError "bad pattern")
    else .ok (sampleAddr s), []⟩

/-- A sample parser factory that always succeeds. -/
def sampleMk : List String → ParserM :=
  fun cs => ⟨fun s => .ok (sampleAddr s), cs⟩

/-- A one-fan rule over naturals. -/
def ceRule : Nat → Except PyExc (List Nat) := fun n => .ok [n]

/-- A fresh engine state over the token list `[7]` with the (list)
empty default results. -/
def ceZ0 : ZipperH Nat Nat := ⟨⟨[7], 0⟩, .lst []⟩

/-- The state and heap after `takewhile` consumes the token `7`. -/
def ceStep1 : ZipperH Nat Nat × HeapR Nat :=
  match takewhileH [] ceZ0 ceRule false ex_default with
  | .ok zh => zh
  | .error _ => (ceZ0, [])

/-- The state and heap after applying `takewhile` once more (it matches
nothing, but still merges, producing a fresh generator over the previous
results). -/
def ceStep2 : ZipperH Nat Nat × HeapR Nat :=
  match takewhileH ceStep1.2 ceStep1.1 ceRule false ex_default with
  | .ok zh => zh
  | .error _ => (ceStep1.1, [])

/-- An engine state with materialized results `[5]`. -/
def ceW : ZipperH Nat Nat := ⟨⟨[], 0⟩, .lst [5]⟩

/-- The blank checked parser as a `smart_batch` parser value. -/
def blankParserM : ParserM := ⟨fun s => parser_call_blank s true, []⟩

/-! ## Theorems -/

theorem consumeR_lst {O : Type} (fuel : Nat) (h : HeapR O) (xs : List O) :
    consumeR fuel h (.lst xs) = (xs, h) := by
  cases fuel <;> rfl

theorem heapPreserved_append {O : Type} (h : HeapR O)
    (x : Option (RVal O × RVal O)) : heapPreserved h (h ++ [x]) :=
  fun _ hi => List.getElem?_append_left hi

/-- C1: for every grammar atom and every token, a true stop predicate
makes the atom's rule return the empty result list, raising no error,
whatever the compiled pattern would have said. -/
theorem C1_stop_predicate_precedence (c : AddressComponent) (s : String)
    (h : c.stops_on s = true) : c.arrow_parse s = .ok [] := by
  unfold AddressComponent.arrow_parse
  simp [h]

theorem C1_stop_predicate_precedence_witness :
    (AddressComponent.mk (fun t => some t) "w" false
        (fun _ => true)).compiled_pattern "MAIN" = some "MAIN" ∧
    (AddressComponent.mk (fun t => some t) "w" false
        (fun _ => true)).arrow_parse "MAIN" = .ok [] :=
  ⟨rfl, C1_stop_predicate_precedence _ "MAIN" rfl⟩

/-- C2: merging engine states A and B gives a state whose cursor is B's
cursor and whose result sequence yields A's results followed by B's: in
the value model the results list is the concatenation, and in the
generator model consuming the merged iterator consumes A's iterator and
then B's, concatenating what they yield. -/
theorem C2_merge_law (I O : Type) :
    (∀ a b : Zipper I O,
      (a.merge b).leftover = b.leftover ∧
      (a.merge b).results = a.results ++ b.results) ∧
    (∀ (fuel : Nat) (h : HeapR O) (a b : ZipperH I O),
      ((mergeH h a b).1).leftover = b.leftover ∧
      consumeR (fuel + 1) (mergeH h a b).2 ((mergeH h a b).1).results =
        (let p1 := consumeR fuel ((mergeH h a b).2.set h.length none)
          a.results
         let p2 := consumeR fuel p1.2 b.results
         (p1.1 ++ p2.1, p2.2))) := by
  refine ⟨fun a b => ⟨rfl, rfl⟩, fun fuel h a b => ⟨rfl, ?_⟩⟩
  have hget : (h ++ [some (a.results, b.results)])[h.length]? =
      some (some (a.results, b.results)) := by
    rw [List.getElem?_append_right (Nat.le_refl _)]
    simp
  show consumeR (fuel + 1) (h ++ [some (a.results, b.results)])
      (.gen h.length) = _
  simp only [consumeR, hget]
  rfl

/-- C7: `item()` raises `EndOfInput` exactly when the position has
reached the token count (otherwise returning the token there), and
`advance(n)` raises `EndOfInput` exactly when the new position would
pass the token count; advancing exactly to the end succeeds and leaves
an exhausted cursor. -/
theorem C7_cursor_discipline (T : Type) (g : GenericInput T) (n : Nat) :
    (g.item = .error .endOfInput ↔ g.data.length ≤ g.state) ∧
    (∀ h : g.state < g.data.length,
      g.item = .ok (g.data.get ⟨g.state, h⟩)) ∧
    (g.advance n = .error .endOfInput ↔ g.data.length < g.state + n) ∧
    (g.state + n = g.data.length →
      ∃ g2, g.advance n = .ok g2 ∧ g2.empty = true) := by
  refine ⟨?_, ?_, ?_, ?_⟩
  · by_cases h : g.state + 1 > g.data.length
    · rw [GenericInput.item, dif_pos h]
      simp
      omega
    · rw [GenericInput.item, dif_neg h]
      simp
      omega
  · intro h
    rw [GenericInput.item, dif_neg (by omega)]
  · by_cases h : g.state + n > g.data.length
    · rw [GenericInput.advance, if_pos h]
      simp
      omega
    · rw [GenericInput.advance, if_neg h]
      simp
      omega
  · intro he
    refine ⟨⟨g.data, g.state + n⟩, ?_, ?_⟩
    · rw [GenericInput.advance, if_neg (by omega)]
    · simp only [GenericInput.empty, decide_eq_true_eq]
      omega

theorem C7_cursor_discipline_witness :
    (GenericInput.mk ([3] : List Nat) 0).item = .ok 3 ∧
    (∃ g2, (GenericInput.mk ([3] : List Nat) 0).advance 1 = .ok g2 ∧
      g2.empty = true) := by
  have h := C7_cursor_discipline Nat ⟨[3], 0⟩ 1
  exact ⟨h.2.1 (by decide), h.2.2.2 (by decide)⟩

/-- C8: the checked blank parser fails on `123 STRAIGHT AUSTIN TX`: the
greedy street-name step absorbs `AUSTIN` and `TX`, the following
directional step hits the end of input, and the call raises the
`EndOfAddressError` subclass of the general parse error instead of
returning a structured result. -/
theorem C8_ambiguous_input_failure :
    parser_call_blank "123 STRAIGHT AUSTIN TX" true =
      .error (.parseError "123 STRAIGHT AUSTIN TX"
        "unknown: end of input") := rfl

/-- C10: on a cursor with fewer than `n` tokens left, `chomp_n` under
the default ignorable-error set hands the rule the unpadded block of all
remaining tokens, and when the rule returns normally the attempted
`advance(n)` raises `EndOfInput` (the state is not returned unchanged). -/
theorem C10_chomp_n_truncated (I O : Type) (z : Zipper I O) (n : Nat)
    (list_func : List I → Except PyExc (List O)) (res : List O)
    (hshort : z.leftover.data.length - z.leftover.state < n)
    (hok : list_func ((z.leftover.data.drop z.leftover.state).take n) =
      .ok res) :
    (z.leftover.data.drop z.leftover.state).take n =
      z.leftover.data.drop z.leftover.state ∧
    z.chomp_n n list_func ex_default = .error .endOfInput := by
  have hlen : (z.leftover.data.drop z.leftover.state).length ≤ n := by
    rw [List.length_drop]
    omega
  refine ⟨List.take_of_length_le hlen, ?_⟩
  simp only [Zipper.chomp_n, hok, GenericInput.advance]
  rw [if_pos (by omega)]
  simp [ex_default]

theorem C10_chomp_n_truncated_witness :
    (Zipper.mk (GenericInput.mk ([0] : List Nat) 0)
      ([] : List Nat)).chomp_n 2 (fun l => .ok l) ex_default =
      .error .endOfInput :=
  (C10_chomp_n_truncated Nat Nat ⟨⟨[0], 0⟩, []⟩ 2 (fun l => .ok l) [0]
    (by decide) rfl).2

theorem required_check_ok_iff (s : String) (d : Buckets)
    (reqs : List String) :
    required_check s d reqs = .ok () ↔ ∀ r ∈ reqs, d.get r ≠ [] := by
  induction reqs with
  | nil => simp [required_check]
  | cons r rest ih =>
    by_cases h : d.get r = []
    · simp [required_check, h]
    · simp [required_check, h, ih]

theorem required_check_missing (s : String) (d : Buckets)
    (reqs : List String) (h : ∃ r ∈ reqs, d.get r = []) :
    ∃ r ∈ reqs, d.get r = [] ∧ required_check s d reqs =
      .error (.parseError s ("Could not identify " ++ r)) := by
  induction reqs with
  | nil => simp at h
  | cons q rest ih =>
    by_cases hq : d.get q = []
    · exact ⟨q, by simp, hq, by simp [required_check, hq]⟩
    · obtain ⟨r, hr, hre⟩ := h
      rcases List.mem_cons.mp hr with he | hm
      · subst he
        exact absurd hre hq
      · obtain ⟨r2, h1, h2, h3⟩ := ih ⟨r, hm, hre⟩
        exact ⟨r2, List.mem_cons_of_mem _ h1, h2,
          by simp [required_check, hq, h3]⟩

/-- C4: a checked `collect_results` that returns leaves every hard
component's bucket non-empty; an empty hard bucket makes the checked
call fail with a parse error naming a missing required field; the
unchecked call never performs the check and always returns. -/
theorem C4_required_field_completeness (s : String)
    (results : List ParseStep) :
    (∀ a, collect_results s results true = .ok a →
      ∀ req ∈ HARD_COMPONENTS, (buckets_of results).get req ≠ []) ∧
    ((∃ req ∈ HARD_COMPONENTS, (buckets_of results).get req = []) →
      ∃ req ∈ HARD_COMPONENTS, (buckets_of results).get req = [] ∧
        collect_results s results true =
          .error (.parseError s ("Could not identify " ++ req))) ∧
    (∃ a, collect_results s results false = .ok a) := by
  refine ⟨?_, ?_, ⟨_, rfl⟩⟩
  · intro a ha req hreq
    cases hrc : required_check s (buckets_of results) HARD_COMPONENTS with
    | ok u =>
      cases u
      exact (required_check_ok_iff s (buckets_of results)
        HARD_COMPONENTS).mp hrc req hreq
    | error e => simp [collect_results, hrc] at ha
  · intro hex
    obtain ⟨r, h1, h2, h3⟩ :=
      required_check_missing s (buckets_of results) HARD_COMPONENTS hex
    exact ⟨r, h1, h2, by simp [collect_results, h3]⟩

theorem C4_required_field_completeness_witness :
    (∀ req ∈ HARD_COMPONENTS,
      (buckets_of [⟨"house_number", "1"⟩, ⟨"st_name", "MAIN"⟩,
        ⟨"city", "SPRINGFIELD"⟩, ⟨"us_state", "OH"⟩]).get req ≠ []) ∧
    (∃ req ∈ HARD_COMPONENTS,
      (buckets_of ([] : List ParseStep)).get req = [] ∧
      collect_results "X" [] true =
        .error (.parseError "X" ("Could not identify " ++ req))) := by
  constructor
  · exact (C4_required_field_completeness "X"
      [⟨"house_number", "1"⟩, ⟨"st_name", "MAIN"⟩,
       ⟨"city", "SPRINGFIELD"⟩, ⟨"us_state", "OH"⟩]).1
      ⟨"1", "MAIN", "SPRINGFIELD", "OH", none, none, none, none, true, "X"⟩
      rfl
  · exact (C4_required_field_completeness "X" []).2.1
      ⟨"house_number", by decide, rfl⟩

theorem pass1_benign (p : ParserM) (adds : List String)
    (h : ∀ a ∈ adds, benign1 (p.call a) = true) :
    pass1 p adds =
      ⟨adds.filterMap (fun a => (p.call a).toOption),
       adds.filter (fun a => !(p.call a).isOk),
       (adds.filterMap (fun a => (p.call a).toOption)).map RawAddress.city,
       none⟩ := by
  induction adds with
  | nil => rfl
  | cons add rest ih =>
    have hb := h add (List.mem_cons_self _ _)
    have hrest := ih (fun a ha => h a (List.mem_cons_of_mem _ ha))
    cases hc : p.call add with
    | ok a => simp [pass1, hc, hrest, Except.toOption, Except.isOk, Except.toBool, List.filter_cons, List.filterMap_cons]
    | error e =>
      rw [hc] at hb
      cases e with
      | endOfInput =>
        simp [pass1, hc, hrest, Except.toOption, Except.isOk, Except.toBool, List.filter_cons, List.filterMap_cons]
      | parseError o m =>
        simp [pass1, hc, hrest, Except.toOption, Except.isOk, Except.toBool, List.filter_cons, List.filterMap_cons]
      | configError m => simp [benign1, caught1] at hb
      | assertionFailed => simp [benign1, caught1] at hb

theorem pass1_config (p : ParserM) (pre : List String) (add : String)
    (post : List String) (e : PyExc)
    (hpre : ∀ a ∈ pre, benign1 (p.call a) = true)
    (hadd : p.call add = .error e) (hnc : caught1 e = false) :
    pass1 p (pre ++ add :: post) =
      ⟨pre.filterMap (fun a => (p.call a).toOption),
       pre.filter (fun a => !(p.call a).isOk),
       (pre.filterMap (fun a => (p.call a).toOption)).map RawAddress.city,
       some e⟩ := by
  induction pre with
  | nil =>
    cases e with
    | endOfInput => simp [caught1] at hnc
    | parseError o m => simp [caught1] at hnc
    | configError m => simp [pass1, hadd]
    | assertionFailed => simp [pass1, hadd]
  | cons q rest ih =>
    have hb := hpre q (List.mem_cons_self _ _)
    have hrest := ih (fun a ha => hpre a (List.mem_cons_of_mem _ ha))
    cases hc : p.call q with
    | ok a => simp [pass1, hc, hrest, Except.toOption, Except.isOk, Except.toBool, List.filter_cons, List.filterMap_cons]
    | error e2 =>
      rw [hc] at hb
      cases e2 with
      | endOfInput =>
        simp [pass1, hc, hrest, Except.toOption, Except.isOk, Except.toBool, List.filter_cons, List.filterMap_cons]
      | parseError o m =>
        simp [pass1, hc, hrest, Except.toOption, Except.isOk, Except.toBool, List.filter_cons, List.filterMap_cons]
      | configError m => simp [benign1, caught1] at hb
      | assertionFailed => simp [benign1, caught1] at hb

/-- C5: during pass 1 every `EndOfInput` or parse-error failure defers
the raw string to the failure list (the item is not yielded, iteration
continues), while the first failure of any other kind — such as a
`ParserConfigError` — aborts the batch at once: prior yields stand, no
later input is processed, and the error surfaces. -/
theorem C5_smart_batch_error_policy :
    (∀ (p : ParserM) (adds : List String),
      (∀ a ∈ adds, benign1 (p.call a) = true) →
      (pass1 p adds).abort = none ∧
      (pass1 p adds).errs = adds.filter (fun a => !(p.call a).isOk) ∧
      (pass1 p adds).ys = adds.filterMap (fun a => (p.call a).toOption)) ∧
    (∀ (mk : List String → ParserM) (p : ParserM)
      (pre post : List String) (add m : String),
      (∀ a ∈ pre, benign1 (p.call a) = true) →
      p.call add = .error (.configError m) →
      smart_batch mk p (pre ++ add :: post) =
        (pre.filterMap (fun a => (p.call a).toOption), [],
          some (.configError m))) := by
  constructor
  · intro p adds h
    rw [pass1_benign p adds h]
    exact ⟨rfl, rfl, rfl⟩
  · intro mk p pre post add m hpre hadd
    simp [smart_batch,
      pass1_config p pre add post (PyExc.configError m) hpre hadd rfl]

theorem C5_smart_batch_error_policy_witness :
    (pass1 sampleParser ["A", "BAD"]).abort = none ∧
    smart_batch sampleMk sampleParser (["A"] ++ "CFG" :: ["B"]) =
      ([sampleAddr "A"], [], some (.configError "bad pattern")) := by
  have h1 := (C5_smart_batch_error_policy.1 sampleParser ["A", "BAD"]
    (by decide)).1
  have h2 := C5_smart_batch_error_policy.2 sampleMk sampleParser ["A"]
    ["B"] "CFG" "bad pattern" (by decide) rfl
  refine ⟨h1, by rw [h2]; rfl⟩

/-- C6 counterexample: the unconditional claim fails.  In the batch
`123 MAIN ST APT` then `123 8TH AVE NE STE A DALLAS TX`, the second
input parses successfully under the city-naive parser, but on the first
the trailing unit marker leaves `chomp_n` a one-token block, so
`__chomp_unit__`'s length assert raises `AssertionError` — an error
kind neither `chomp_n`'s ignorable set (`ParseError` only), nor
`__call__`, nor pass 1 of `smart_batch` catches.  The batch aborts
before yielding anything: a pass-1 success is dropped and the yield
count falls below the pass-1 success count. -/
theorem C6_smart_batch_counterexample :
    (blankParserM.call "123 8TH AVE NE STE A DALLAS TX").isOk = true ∧
    blankParserM.call "123 MAIN ST APT" = .error .assertionFailed ∧
    (smart_batch (fun cs => ⟨blankParserM.call, cs⟩) blankParserM
      ["123 MAIN ST APT", "123 8TH AVE NE STE A DALLAS TX"]).1 = [] :=
  ⟨rfl, rfl, rfl⟩

/-- C6 (amended): provided every pass-1 outcome is a success or one of
the two error kinds pass 1 catches — the hypothesis the counterexample
shows is necessary — the stream `smart_batch` yields is the pass-1
successes, in order, followed by whatever pass 2 adds, so every input
the city-naive parser parses is yielded unchanged and the output count
is at least the pass-1 success count. -/
theorem C6_repair_monotonicity (mk : List String → ParserM) (p : ParserM)
    (adds : List String)
    (h : ∀ a ∈ adds, benign1 (p.call a) = true) :
    (∃ extra, (smart_batch mk p adds).1 =
      adds.filterMap (fun a => (p.call a).toOption) ++ extra) ∧
    (adds.filterMap (fun a => (p.call a).toOption)).length ≤
      (smart_batch mk p adds).1.length := by
  have key : (smart_batch mk p adds).1 =
      adds.filterMap (fun a => (p.call a).toOption) ++
        (pass2 (mk (p.known_cities ++
          (((adds.filterMap (fun a => (p.call a).toOption)).map
            RawAddress.city).eraseDups)))
          (adds.filter (fun a => !(p.call a).isOk))).ys := by
    simp [smart_batch, pass1_benign p adds h]
  refine ⟨⟨_, key⟩, ?_⟩
  rw [key, List.length_append]
  exact Nat.le_add_right _ _

theorem C6_repair_monotonicity_witness :
    (∃ extra, (smart_batch sampleMk sampleParser ["A", "BAD"]).1 =
      (["A", "BAD"].filterMap
        (fun a => (sampleParser.call a).toOption)) ++ extra) ∧
    (["A", "BAD"].filterMap
      (fun a => (sampleParser.call a).toOption)).length ≤
      (smart_batch sampleMk sampleParser ["A", "BAD"]).1.length :=
  C6_repair_monotonicity sampleMk sampleParser ["A", "BAD"] (by decide)

theorem heapPreserved_refl {O : Type} (h : HeapR O) : heapPreserved h h :=
  fun _ _ => rfl

/-- C3 counterexample: build a state with `takewhile` (its results are a
merge generator yielding `[7]`), apply a further combinator to it, and
consume the derived state's results; afterwards the original state's
results iterator is exhausted and yields `[]` instead of its original
`[7]`, so the original state is not left usable with its original
values. -/
theorem C3_counterexample :
    (consume ceStep1.2 ceStep1.1.results).1 = [7] ∧
    (consume (consume ceStep2.2 ceStep2.1.results).2
      ceStep1.1.results).1 = [] := by decide

/-- C3 (amended): no combinator operator writes to any existing heap
cell — applying an operator never mutates the given state's cursor or
results in place — and a state whose results are a materialized list
remains fully usable afterwards, still yielding its original results no
matter what is consumed; only a state holding a lazily merged results
generator can be exhausted by consuming a derived state's results. -/
theorem C3_amended_non_mutation (I O : Type) (h : HeapR O)
    (a b : ZipperH I O) (xs : List O) (f : I → Except PyExc (List O))
    (single : Bool) (exT : PyExc → Bool) (n : Nat)
    (lf : List I → Except PyExc (List O))
    (fs : List (I → Except PyExc (List O))) :
    heapPreserved h (mergeH h a b).2 ∧
    (∀ z2 h2, takewhileH h a f single exT = .ok (z2, h2) →
      heapPreserved h h2) ∧
    (∀ z2 h2, consume_withH h a f exT = .ok (z2, h2) →
      heapPreserved h h2) ∧
    (∀ z2 h2, chomp_nH h a n lf exT = .ok (z2, h2) →
      heapPreserved h h2) ∧
    (∀ z2 h2, orH h a exT fs = .ok (z2, h2) → heapPreserved h h2) ∧
    (a.results = .lst xs → origReadable a xs) := by
  have htw : ∀ (sg : Bool) z2 h2,
      takewhileH h a f sg exT = .ok (z2, h2) → heapPreserved h h2 := by
    intro sg z2 h2 heq
    simp only [takewhileH] at heq
    split at heq
    · simp at heq
    · split at heq
      · simp at heq
      · split at heq
        · simp at heq
        · simp only [mergeH, Except.ok.injEq, Prod.mk.injEq] at heq
          obtain ⟨hz, hh⟩ := heq
          subst hh
          exact heapPreserved_append h _
  have hor : ∀ (gs : List (I → Except PyExc (List O))) z2 h2,
      orH h a exT gs = .ok (z2, h2) → heapPreserved h h2 := by
    intro gs
    induction gs with
    | nil =>
      intro z2 h2 heq
      simp only [orH, Except.ok.injEq, Prod.mk.injEq] at heq
      obtain ⟨hz, hh⟩ := heq
      subst hh
      exact heapPreserved_refl h
    | cons g gs ih =>
      intro z2 h2 heq
      simp only [orH] at heq
      split at heq
      · rename_i zh hs
        split at hs
        · simp at hs
        · split at hs
          · simp at hs
          · split at hs
            · simp at hs
            · split at hs
              · simp at hs
              · simp only [mergeH, Except.ok.injEq, Option.some.injEq]
                  at hs
                simp only [Except.ok.injEq] at heq
                rw [← hs] at heq
                injection heq with hz hh
                subst hh
                exact heapPreserved_append h _
      · exact ih z2 h2 heq
      · split at heq
        · exact ih z2 h2 heq
        · simp at heq
  refine ⟨heapPreserved_append h _, htw single, htw true, ?_, hor fs, ?_⟩
  · intro z2 h2 heq
    simp only [chomp_nH] at heq
    split at heq
    · rename_i zh hs
      split at hs
      · simp at hs
      · split at hs
        · simp at hs
        · simp only [mergeH, Except.ok.injEq] at hs
          simp only [Except.ok.injEq] at heq
          rw [← hs] at heq
          injection heq with hz hh
          subst hh
          exact heapPreserved_append h _
    · split at heq
      · simp only [Except.ok.injEq, Prod.mk.injEq] at heq
        obtain ⟨hz, hh⟩ := heq
        subst hh
        exact heapPreserved_refl h
      · simp at heq
  · intro ha h2
    rw [consume, ha, consumeR_lst]

theorem C3_amended_non_mutation_witness :
    heapPreserved ([none] : HeapR Nat) (mergeH [none] ceW ceW).2 ∧
    heapPreserved ([none] : HeapR Nat)
      [none, some ((RVal.lst [5] : RVal Nat), RVal.lst [])] ∧
    consume [none, some ((RVal.lst [5] : RVal Nat), RVal.lst [])]
      ceW.results = ([5], [none, some (RVal.lst [5], RVal.lst [])]) := by
  have hc := C3_amended_non_mutation Nat Nat [none] ceW ceW [5] ceRule
    false ex_default 2 (fun l => .ok l) []
  refine ⟨hc.1, ?_, ?_⟩
  · exact hc.2.1 ⟨⟨[], 0⟩, RVal.gen 1⟩
      [none, some (RVal.lst [5], RVal.lst [])] rfl
  · exact hc.2.2.2.2.2 rfl _

theorem charToNatOfNat (n : Nat) (h : n < 55296) :
    (Char.ofNat n).toNat = n := by
  have hv : n.isValidChar := Or.inl h
  simp only [Char.ofNat, dif_pos hv]
  rfl

theorem upperChar_toNat (c : Char) (h : isLowerC c = true) :
    (upperChar c).toNat = c.toNat - 32 := by
  simp only [isLowerC, Bool.and_eq_true, decide_eq_true_eq] at h
  rw [upperChar, if_pos (by simp [isLowerC]; omega), charToNatOfNat]
  omega

theorem upperChar_not_lower (c : Char) (h : isLowerC c = false) :
    upperChar c = c := by
  rw [upperChar, if_neg (by simp [h])]

theorem tokChar_of_keep (c : Char) (hk : keepChar c = true)
    (hne : (c == '#') = false) : tokChar (upperChar c) = true := by
  simp only [keepChar, Bool.or_eq_true] at hk
  rcases hk with ((((((h | h) | h) | h) | h) | h) | h)
  · have hl : isLowerC c = false := by
      simp only [isUpperC, Bool.and_eq_true, decide_eq_true_eq] at h
      simp only [isLowerC, Bool.and_eq_true, decide_eq_true_eq]
      simp only [Bool.and_eq_false_iff, decide_eq_false_iff_not]
      omega
    rw [upperChar_not_lower c hl]
    simp [tokChar, h]
  · have ht := upperChar_toNat c h
    simp only [isLowerC, Bool.and_eq_true, decide_eq_true_eq] at h
    simp only [tokChar, isUpperC, Bool.or_eq_true, Bool.and_eq_true,
      decide_eq_true_eq, ht]
    left
    omega
  · have hl : isLowerC c = false := by
      simp only [isDigitC, Bool.and_eq_true, decide_eq_true_eq] at h
      simp only [isLowerC, Bool.and_eq_false_iff, decide_eq_false_iff_not]
      omega
    rw [upperChar_not_lower c hl]
    simp [tokChar, h]
  · rw [eq_of_beq h]
    decide
  · rw [h] at hne
    exact absurd hne (by decide)
  · rw [eq_of_beq h]
    decide
  · rw [eq_of_beq h]
    decide

theorem upperChar_fixed (c : Char) (h : tokChar c = true) :
    upperChar c = c := by
  apply upperChar_not_lower
  simp only [tokChar, Bool.or_eq_true] at h
  simp only [isLowerC, Bool.and_eq_false_iff, decide_eq_false_iff_not]
  rcases h with ((((h | h) | h) | h) | h)
  · simp only [isUpperC, Bool.and_eq_true, decide_eq_true_eq] at h
    omega
  · simp only [isDigitC, Bool.and_eq_true, decide_eq_true_eq] at h
    omega
  · rw [eq_of_beq h]
    decide
  · rw [eq_of_beq h]
    decide
  · rw [eq_of_beq h]
    decide

theorem tokChar_keep (c : Char) (h : tokChar c = true) :
    keepChar c = true := by
  simp only [tokChar, Bool.or_eq_true] at h
  simp only [keepChar, Bool.or_eq_true]
  tauto

theorem map_id_of_mem {α : Type} (f : α → α) :
    ∀ l : List α, (∀ c ∈ l, f c = c) → l.map f = l := by
  intro l
  induction l with
  | nil => intro _; rfl
  | cons d ds ih =>
    intro h
    simp only [List.map_cons]
    rw [h d (List.mem_cons_self _ _), ih (fun c hc => h c (List.mem_cons_of_mem _ hc))]

theorem mem_pyReplaceF (old new : List Char) (c : Char) :
    ∀ (fuel : Nat) (l : List Char), c ∈ pyReplaceF old new fuel l →
      c ∈ l ∨ c ∈ new := by
  intro fuel
  induction fuel with
  | zero =>
    intro l hc
    cases l with
    | nil => simp [pyReplaceF] at hc
    | cons d ds => exact Or.inl hc
  | succ fuel ih =>
    intro l hc
    cases l with
    | nil => simp [pyReplaceF] at hc
    | cons d ds =>
      by_cases hcond : (!old.isEmpty && old.isPrefixOf (d :: ds)) = true
      · simp only [pyReplaceF] at hc
        rw [if_pos hcond] at hc
        rcases List.mem_append.mp hc with h | h
        · exact Or.inr h
        · rcases ih _ h with h2 | h2
          · exact Or.inl (List.mem_of_mem_drop h2)
          · exact Or.inr h2
      · simp only [pyReplaceF] at hc
        rw [if_neg hcond] at hc
        rcases List.mem_cons.mp hc with h | h
        · exact Or.inl (h ▸ List.mem_cons_self _ _)
        · rcases ih _ h with h2 | h2
          · exact Or.inl (List.mem_cons_of_mem _ h2)
          · exact Or.inr h2

theorem mem_pyReplace (old new l : List Char) (c : Char)
    (hc : c ∈ pyReplace old new l) : c ∈ l ∨ c ∈ new :=
  mem_pyReplaceF old new c l.length l hc

theorem pyReplaceF_id (old new : List Char) :
    ∀ (fuel : Nat) (l : List Char), hasSubstr old l = false →
      pyReplaceF old new fuel l = l := by
  intro fuel
  induction fuel with
  | zero =>
    intro l _
    cases l with
    | nil => rfl
    | cons d ds => rfl
  | succ fuel ih =>
    intro l h
    cases l with
    | nil => rfl
    | cons d ds =>
      simp only [hasSubstr, Bool.or_eq_false_iff] at h
      simp only [pyReplaceF]
      rw [if_neg (by simp [h.1]), ih ds h.2]

theorem pyReplace_id (old new l : List Char)
    (h : hasSubstr old l = false) : pyReplace old new l = l :=
  pyReplaceF_id old new l.length l h

theorem hasSubstr_single (x : Char) (l : List Char)
    (h : ∀ c ∈ l, c ≠ x) : hasSubstr [x] l = false := by
  induction l with
  | nil => rfl
  | cons d ds ih =>
    simp only [hasSubstr, List.isPrefixOf, Bool.or_eq_false_iff,
      Bool.and_eq_false_iff]
    constructor
    · left
      have := h d (List.mem_cons_self _ _)
      simp [beq_eq_false_iff_ne, this.symm]
    · exact ih (fun c hc => h c (List.mem_cons_of_mem _ hc))

theorem splitOnP_mem {α : Type} (p : α → Bool) :
    ∀ (l : List α) (w : List α), w ∈ l.splitOnP p →
      ∀ x ∈ w, x ∈ l ∧ p x = false := by
  intro l
  induction l with
  | nil =>
    intro w hw x hx
    rw [List.splitOnP_nil] at hw
    simp at hw
    subst hw
    simp at hx
  | cons d ds ih =>
    intro w hw x hx
    rw [List.splitOnP_cons] at hw
    by_cases hp : p d = true
    · rw [if_pos hp] at hw
      rcases List.mem_cons.mp hw with he | hm
      · subst he
        simp at hx
      · obtain ⟨hin, hpf⟩ := ih w hm x hx
        exact ⟨List.mem_cons_of_mem _ hin, hpf⟩
    · rw [if_neg hp] at hw
      rcases hsp : ds.splitOnP p with _ | ⟨a, as⟩
      · exact absurd hsp (List.splitOnP_ne_nil p ds)
      · rw [hsp] at hw
        simp only [List.modifyHead] at hw
        rcases List.mem_cons.mp hw with he | hm
        · subst he
          rcases List.mem_cons.mp hx with hxe | hxm
          · subst hxe
            exact ⟨List.mem_cons_self _ _, by simpa using hp⟩
          · obtain ⟨hin, hpf⟩ :=
              ih a (by rw [hsp]; exact List.mem_cons_self _ _) x hxm
            exact ⟨List.mem_cons_of_mem _ hin, hpf⟩
        · obtain ⟨hin, hpf⟩ :=
            ih w (by rw [hsp]; exact List.mem_cons_of_mem _ hm) x hx
          exact ⟨List.mem_cons_of_mem _ hin, hpf⟩

theorem wordsOf_mem (l : List Char) (w : List Char) (hw : w ∈ wordsOf l) :
    w ≠ [] ∧ ∀ x ∈ w, x ∈ l ∧ x ≠ ' ' := by
  rw [wordsOf] at hw
  obtain ⟨hmem, hfil⟩ := List.mem_filter.mp hw
  constructor
  · simpa using hfil
  · intro x hx
    have := splitOnP_mem (fun a => a == ' ') l w hmem x hx
    exact ⟨this.1, by simpa [beq_eq_false_iff_ne] using this.2⟩

theorem mem_intersperse_words {α : Type} (s : α) :
    ∀ (ws : List α) (w : α), w ∈ List.intersperse s ws →
      w ∈ ws ∨ w = s := by
  intro ws
  induction ws with
  | nil =>
    intro w hw
    simp at hw
  | cons a as ih =>
    intro w hw
    cases as with
    | nil =>
      simp at hw
      exact Or.inl (by simp [hw])
    | cons b bs =>
      rw [List.intersperse_cons_cons] at hw
      rcases List.mem_cons.mp hw with he | hm
      · exact Or.inl (he ▸ List.mem_cons_self _ _)
      · rcases List.mem_cons.mp hm with he2 | hm2
        · exact Or.inr he2
        · rcases ih w hm2 with h | h
          · exact Or.inl (List.mem_cons_of_mem _ h)
          · exact Or.inr h

theorem mem_normalizeWs (l : List Char) (c : Char)
    (hc : c ∈ normalizeWs l) : c ∈ l ∨ c = ' ' := by
  rw [normalizeWs, joinWords, List.intercalate] at hc
  obtain ⟨w, hw, hcw⟩ := List.mem_flatten.mp hc
  rcases mem_intersperse_words [' '] (wordsOf l) w hw with h | h
  · exact Or.inl ((wordsOf_mem l w h).2 c hcw).1
  · subst h
    simp at hcw
    exact Or.inr hcw

theorem normalizeWs_idem (l : List Char) :
    normalizeWs (normalizeWs l) = normalizeWs l := by
  rcases hws : wordsOf l with _ | ⟨a, as⟩
  · have h0 : normalizeWs l = [] := by
      rw [normalizeWs, hws]
      rfl
    rw [h0]
    rfl
  · have hx : ∀ w ∈ wordsOf l, ' ' ∉ w := by
      intro w hw hsp
      exact ((wordsOf_mem l w hw).2 ' ' hsp).2 rfl
    have hne : wordsOf l ≠ [] := by
      rw [hws]
      simp
    have hlem : wordsOf (joinWords (wordsOf l)) = wordsOf l := by
      calc wordsOf (joinWords (wordsOf l))
          = ((joinWords (wordsOf l)).splitOn ' ').filter
              (fun w => !w.isEmpty) := rfl
        _ = (wordsOf l).filter (fun w => !w.isEmpty) := by
            rw [joinWords, List.splitOn_intercalate (wordsOf l) ' ' hx hne]
        _ = wordsOf l := List.filter_eq_self.mpr
            (fun w hw => by simpa using (wordsOf_mem l w hw).1)
    show joinWords (wordsOf (joinWords (wordsOf l))) = joinWords (wordsOf l)
    rw [hlem]

theorem normPart_tokChar (l : List Char) (hsharp : ∀ c ∈ l, c ≠ '#') :
    ∀ c ∈ normPart l, tokChar c = true := by
  intro c hc
  rw [normPart] at hc
  rcases mem_normalizeWs _ c hc with hc2 | hsp
  · simp only [upperL, removePunc] at hc2
    obtain ⟨d, hd, hdc⟩ := List.mem_map.mp hc2
    obtain ⟨hd2, hdk⟩ := List.mem_filter.mp hd
    have hdne : (d == '#') = false := by
      rcases mem_pyReplace [','] [' '] l d hd2 with hdl | hdn
      · simp only [beq_eq_false_iff_ne]
        exact hsharp d hdl
      · simp at hdn
        rw [hdn]
        decide
    rw [← hdc]
    exact tokChar_of_keep d hdk hdne
  · rw [hsp]
    decide

theorem tokChar_stages (l : List Char) (ht : ∀ c ∈ l, tokChar c = true) :
    pyReplace [','] [' '] l = l ∧ removePunc l = l ∧ upperL l = l := by
  refine ⟨?_, ?_, ?_⟩
  · apply pyReplace_id
    apply hasSubstr_single
    intro c hc hce
    have h2 := ht c hc
    rw [hce] at h2
    exact absurd h2 (by decide)
  · exact List.filter_eq_self.mpr (fun c hc => tokChar_keep c (ht c hc))
  · exact map_id_of_mem upperChar l (fun c hc => upperChar_fixed c (ht c hc))

/-- C9 counterexample: the blank parser's normalization is not
idempotent.  The doubled-marker collapse is itself not idempotent:
`APT APT APT` normalizes to `APT APT` (Python `str.replace` skips past a
replaced occurrence), and a second pass collapses that to `APT`.  And
the `#` to `APT ` substitution runs after whitespace normalization, so
normalizing `#` leaves a trailing space that a second pass strips. -/
theorem C9_counterexample :
    tokenize (tokenize "APT APT APT") ≠ tokenize "APT APT APT" ∧
    tokenize (tokenize "#") ≠ tokenize "#" := by decide

/-- C9 (amended): the blank parser's normalization is idempotent on
every input that contains no `#` unit marker and whose whitespace
normalization contains no doubled `APT APT` — the two shapes the
counterexample shows genuinely break idempotence. -/
theorem C9_normalization_idempotent (s : String)
    (h1 : ∀ c ∈ s.toList, c ≠ '#')
    (h2 : hasSubstr "APT APT".toList (normPart s.toList) = false) :
    tokenize (tokenize s) = tokenize s := by
  have htok := normPart_tokChar s.toList h1
  have hsharpT : pyReplace ['#'] "APT ".toList (normPart s.toList) =
      normPart s.toList := by
    apply pyReplace_id
    apply hasSubstr_single
    intro c hc hce
    have hx := htok c hc
    rw [hce] at hx
    exact absurd hx (by decide)
  have hT : tokenizeChars s.toList = normPart s.toList := by
    rw [tokenizeChars, hsharpT, pyReplace_id _ _ _ h2]
  obtain ⟨hcomma, hpunc, hupper⟩ := tokChar_stages _ htok
  have hnp : normPart (normPart s.toList) = normPart s.toList := by
    show normalizeWs (upperL (removePunc (pyReplace [','] [' ']
      (normPart s.toList)))) = normPart s.toList
    rw [hcomma, hpunc, hupper]
    exact normalizeWs_idem _
  have hmain : tokenizeChars (String.mk (tokenizeChars s.toList)).toList =
      tokenizeChars s.toList := by
    have hlist : (String.mk (tokenizeChars s.toList)).toList =
        tokenizeChars s.toList := rfl
    rw [hlist, hT]
    rw [tokenizeChars, hnp, hsharpT, pyReplace_id _ _ _ h2]
  simp only [tokenize]
  exact congrArg String.mk hmain

theorem C9_normalization_idempotent_witness :
    tokenize (tokenize "123 MAIN ST") = tokenize "123 MAIN ST" :=
  C9_normalization_idempotent "123 MAIN ST" (by decide) (by decide)
